import Mathlib

/-
Verification of the `static_ptr` header (src/static_ptr.hpp): a bounded-capacity
owning polymorphic slot.  The C++ template `static_ptr<TypeT, MaxSize>` is
shallowly embedded as a state machine: each slot variant carries its element
type and byte capacity, an object buffer, a lifecycle-manager (LCM) buffer and
an `is_empty` flag.  Placement-constructions and destructor invocations are
recorded in an event trace so that lifetime claims (each object destroyed
exactly once, ordering of operations inside `operator=`) can be stated.
-/

namespace SPtr

/-- An element family: the abstract element type together with the concrete
types that may be stored through it.  `is_base_of b d` models
`std::is_base_of<b, d>::value`; `size` models `sizeof`; `dispatch` models a
virtual member function, resolved on the dynamic type of the object. -/
structure Family where
  Ty : Type
  is_base_of : Ty → Ty → Bool
  size : Ty → Nat
  dispatch : Ty → Nat → Nat

variable {F : Family}

/-- A concrete object living in some slot's storage: its dynamic type `ty`
(the `Te` used at placement-new time), a fresh identity `id` used to count
constructions and destructions, and `val`, the state it was constructed from
(constructor arguments, preserved by move-construction). -/
structure Obj (F : Family) where
  ty : F.Ty
  id : Nat
  val : List Nat

/-- One variant `static_ptr<elem, cap>`.  `storage_obj` is the object buffer
(`none` = never written), `storage_lcm` the lifecycle-manager buffer holding
the concrete type the current LCM was generated for, and `is_empty` the flag;
buffers are deliberately not cleared on destruction, as in the source. -/
structure static_ptr (F : Family) where
  elem : F.Ty
  cap : Nat
  storage_obj : Option (Obj F) := none
  storage_lcm : Option F.Ty := none
  is_empty : Bool := true

/-- `get()`: null when `is_empty`, otherwise a view of the object buffer. -/
def static_ptr.get (sl : static_ptr F) : Option (Obj F) :=
  if sl.is_empty then none else sl.storage_obj

/-- Observable events: a placement-construction of object `id` of dynamic type
`ty` into slot `slot`, a write of a lifecycle manager for `ty` into `slot`'s
LCM buffer, and a destructor invocation on object `objId` dispatched through
the LCM held by slot `viaSlot` (whose recorded concrete type is `lcmTy`). -/
inductive Event (F : Family) where
  | construct (slot : Nat) (id : Nat) (ty : F.Ty) (val : List Nat)
  | lcmWrite (slot : Nat) (ty : F.Ty)
  | destroy (viaSlot : Nat) (lcmTy : Option F.Ty) (objId : Nat)

/-- Global state: the slots created so far (`none` = already destructed), a
fresh-identity counter and the event trace. -/
structure Sys (F : Family) where
  slots : List (Option (static_ptr F))
  nextId : Nat
  trace : List (Event F)

/-- Look up a slot by handle. -/
def Sys.slot (sys : Sys F) (i : Nat) : Option (static_ptr F) :=
  (sys.slots[i]?).join

/-- Update slot `i` in place when it exists. -/
def updSlot (l : List (Option (static_ptr F))) (i : Nat)
    (f : static_ptr F → static_ptr F) : List (Option (static_ptr F)) :=
  match l[i]? with
  | some (some sl) => l.set i (some (f sl))
  | _ => l

/-- Lift `updSlot` to the system state. -/
def Sys.upd (sys : Sys F) (i : Nat) (f : static_ptr F → static_ptr F) : Sys F :=
  { sys with slots := updSlot sys.slots i f }

/-- Append an event to the trace. -/
def Sys.emit (sys : Sys F) (e : Event F) : Sys F :=
  { sys with trace := sys.trace ++ [e] }

/-- The private `_emplace<Te>(args...)` body (src/static_ptr.hpp:104-107):
write a lifecycle manager specialized to `te` into `storage_lcm`, then
placement-construct a `te` object from `args` into `storage_obj`, then clear
`is_empty`. -/
def emplacePriv (sys : Sys F) (s : Nat) (te : F.Ty) (args : List Nat) : Sys F :=
  let o : Obj F := ⟨te, sys.nextId, args⟩
  let sys1 := sys.upd s fun sl =>
    { sl with storage_lcm := some te, storage_obj := some o, is_empty := false }
  { sys1 with nextId := sys.nextId + 1,
              trace := sys1.trace ++ [.lcmWrite s te, .construct s sys.nextId te args] }

/-- The public `emplace<Te>(args...)` (src/static_ptr.hpp:236-248): runs
`_emplace` only when the slot is currently empty, and returns the value of the
`is_empty` member read after the conditional. -/
def static_ptr.emplace (sys : Sys F) (s : Nat) (te : F.Ty) (args : List Nat) :
    Sys F × Bool :=
  match sys.slot s with
  | none => (sys, true)
  | some sl =>
    let sys' := if sl.is_empty then emplacePriv sys s te args else sys
    (sys', (((sys'.slot s).map static_ptr.is_empty).getD true))

/-- The private `_transfer_obj(rhs)` (src/static_ptr.hpp:129-143), transferring
from slot `s` into slot `d`: when `rhs.get()` is non-null, `clone_obj` a new
object into the destination buffer through the source's LCM, `clone_lcm` the
source's LCM into the destination's LCM buffer, mark the source empty, destroy
the moved-from husk through the source's LCM, and mark the destination
occupied. -/
def transfer_obj (sys : Sys F) (d s : Nat) : Sys F :=
  match sys.slot d, sys.slot s with
  | some _, some ss =>
    match ss.get, ss.storage_lcm with
    | some o, some lt =>
      let newO : Obj F := ⟨lt, sys.nextId, o.val⟩
      let sys1 := (sys.upd d fun dd => { dd with storage_obj := some newO }).emit
        (.construct d sys.nextId lt o.val)
      let sys2 := { sys1 with nextId := sys.nextId + 1 }
      let sys3 := (sys2.upd d fun dd => { dd with storage_lcm := some lt }).emit
        (.lcmWrite d lt)
      let sys4 := sys3.upd s fun sl => { sl with is_empty := true }
      let sys5 := sys4.emit (.destroy s (some lt) o.id)
      sys5.upd d fun dd => { dd with is_empty := false }
    | _, _ => sys
  | _, _ => sys

/-- The move-assignment `operator=` (src/static_ptr.hpp:191-210): if the
destination currently holds an object, set its `is_empty` flag and destroy the
object through the destination's own LCM; then `_transfer_obj` from the
source. -/
def moveAssign (sys : Sys F) (d s : Nat) : Sys F :=
  match sys.slot d with
  | none => sys
  | some dd =>
    match dd.get with
    | some od =>
      let sys1 := sys.upd d fun sl => { sl with is_empty := true }
      let sys2 := sys1.emit (.destroy d dd.storage_lcm od.id)
      transfer_obj sys2 d s
    | none => transfer_obj sys d s

/-- The move constructors (src/static_ptr.hpp:158-176): default-initialize a
fresh slot of element type `e` and capacity `c`, then `_transfer_obj` from the
source slot. -/
def moveCtor (sys : Sys F) (e : F.Ty) (c : Nat) (s : Nat) : Sys F :=
  let d := sys.slots.length
  let sys1 : Sys F := { sys with slots := sys.slots ++ [some { elem := e, cap := c }] }
  transfer_obj sys1 d s

/-- The destructor `~static_ptr` (src/static_ptr.hpp:217-222): if `get()` is
non-null, destroy the object through the slot's own LCM; then the slot itself
goes away. -/
def destroySlot (sys : Sys F) (s : Nat) : Sys F :=
  match sys.slot s with
  | none => sys
  | some sl =>
    let sys1 := match sl.get with
      | some o => sys.emit (.destroy s sl.storage_lcm o.id)
      | none => sys
    { sys1 with slots := sys1.slots.set s none }

/-- An element of the `std::tuple` produced by `make_static<T>(args...)`:
index 0 holds the fake `T*` null pointer carrying the concrete type, the
remaining indices hold the forwarded constructor arguments. -/
inductive TupElem (F : Family) where
  | ptrTag (ty : F.Ty)
  | arg (v : Nat)

/-- `make_static<T>(args...)` (src/static_ptr.hpp:281-288): the type-tagged
payload `std::tuple<T*, Args...>`. -/
def make_static (t : F.Ty) (args : List Nat) : List (TupElem F) :=
  TupElem.ptrTag t :: args.map TupElem.arg

/-- The index pack built by `gens<N>` (src/static_ptr.hpp:114-122): peel one
level per step, prepending `N-1`, bottoming out at `gens<1>` with `seq<>`. -/
def gensAux : Nat → List Nat → List Nat
  | 0, acc => acc
  | 1, acc => acc
  | n + 2, acc => gensAux (n + 1) ((n + 1) :: acc)

/-- `gens<N>::type`, as the list of tuple indices `[1, ..., N-1]`. -/
def gens (n : Nat) : List Nat := gensAux n []

/-- `std::tuple_element<0, T>::type` stripped of its pointer: the concrete
type buried at index 0 of a `make_static` payload. -/
def tupleTy (tup : List (TupElem F)) : Option F.Ty :=
  match tup[0]? with
  | some (TupElem.ptrTag t) => some t
  | _ => none

/-- `std::get<i>(tup)` for the argument positions of the payload. -/
def tupleArg (tup : List (TupElem F)) (i : Nat) : Nat :=
  match tup[i]? with
  | some (TupElem.arg v) => v
  | _ => 0

/-- `_make_obj<Type>(tup, seq<S...>)` (src/static_ptr.hpp:124-127): call
`_emplace<Type>` with the tuple elements selected by the index pack. -/
def make_obj (sys : Sys F) (s : Nat) (ty : F.Ty) (tup : List (TupElem F)) : Sys F :=
  emplacePriv sys s ty ((gens tup.length).map (tupleArg tup))

/-- The from-`make_static` constructor (src/static_ptr.hpp:179-187): recover
the concrete type from index 0 of the payload, default-initialize a fresh
slot, and `_make_obj` into it. -/
def ctorFromTuple (sys : Sys F) (e : F.Ty) (c : Nat) (tup : List (TupElem F)) : Sys F :=
  match tupleTy tup with
  | none => sys
  | some ty =>
    let d := sys.slots.length
    let sys1 : Sys F := { sys with slots := sys.slots ++ [some { elem := e, cap := c }] }
    make_obj sys1 d ty tup

/-- The two `static_assert`s guarding cross-variant transfer
(src/static_ptr.hpp:170-173 and 193-196): the destination capacity must be at
least the source capacity, and the destination element type must be a base of
the source element type. -/
def transfer_compiles (dstElem : F.Ty) (dstCap : Nat) (srcElem : F.Ty) (srcCap : Nat) :
    Bool :=
  decide (srcCap ≤ dstCap) && F.is_base_of dstElem srcElem

/-- The SFINAE constraint on `_emplace` / `emplace` (src/static_ptr.hpp:78-84,
236-241): the only static requirement is `std::is_base_of<element_type, Te>`;
the source contains no size constraint on this path. -/
def emplace_compiles (e te : F.Ty) : Bool := F.is_base_of e te

/-- The operations a client program can perform on a collection of slots. -/
inductive Op (F : Family) where
  | mkEmpty (e : F.Ty) (c : Nat)
  | ctorMake (e : F.Ty) (c : Nat) (tup : List (TupElem F))
  | emplaceOp (s : Nat) (te : F.Ty) (args : List Nat)
  | moveCtorOp (e : F.Ty) (c : Nat) (src : Nat)
  | moveAssignOp (dst : Nat) (src : Nat)
  | destroyOp (s : Nat)

/-- Run one operation. -/
def runOp (sys : Sys F) : Op F → Sys F
  | .mkEmpty e c => { sys with slots := sys.slots ++ [some { elem := e, cap := c }] }
  | .ctorMake e c tup => ctorFromTuple sys e c tup
  | .emplaceOp s te args => (static_ptr.emplace sys s te args).1
  | .moveCtorOp e c src => moveCtor sys e c src
  | .moveAssignOp d s => moveAssign sys d s
  | .destroyOp s => destroySlot sys s

/-- Run a sequence of operations. -/
def runOps (sys : Sys F) (ops : List (Op F)) : Sys F := ops.foldl runOp sys

/-- The initial state: no slots, no events. -/
def initSys (F : Family) : Sys F := ⟨[], 0, []⟩

/-- Compile-time well-formedness of one operation: the static asserts and the
SFINAE constraints that the C++ compiler checks, plus existence of the named
slots. -/
def wfOp (sys : Sys F) : Op F → Bool
  | .mkEmpty _ _ => true
  | .ctorMake e _ tup =>
    match tupleTy tup with
    | some ty => emplace_compiles e ty
    | none => false
  | .emplaceOp s te _ =>
    match sys.slot s with
    | some sl => emplace_compiles sl.elem te
    | none => false
  | .moveCtorOp e c src =>
    match sys.slot src with
    | some sl => transfer_compiles e c sl.elem sl.cap
    | none => false
  | .moveAssignOp d s =>
    match sys.slot d, sys.slot s with
    | some dd, some ss => transfer_compiles dd.elem dd.cap ss.elem ss.cap
    | _, _ => false
  | .destroyOp s => (sys.slot s).isSome

/-- Whether an event is the construction of object `i`. -/
def isConstructOf (i : Nat) : Event F → Bool
  | .construct _ j _ _ => j == i
  | _ => false

/-- Whether an event is a destructor invocation on object `i`. -/
def isDestroyOf (i : Nat) : Event F → Bool
  | .destroy _ _ j => j == i
  | _ => false

/-- Number of constructions of object `i` in a trace. -/
def countC (tr : List (Event F)) (i : Nat) : Nat := tr.countP (isConstructOf i)

/-- Number of destructions of object `i` in a trace. -/
def countD (tr : List (Event F)) (i : Nat) : Nat := tr.countP (isDestroyOf i)

/-- Whether this slot entry currently holds the live object `i`. -/
def holdsId (os : Option (static_ptr F)) (i : Nat) : Bool :=
  match os with
  | some sl =>
    !sl.is_empty && (match sl.storage_obj with
      | some o => o.id == i
      | none => false)
  | none => false

/-- Number of slots currently holding the live object `i`. -/
def liveCnt (sys : Sys F) (i : Nat) : Nat :=
  sys.slots.countP fun os => holdsId os i

/-- All slots are gone or empty: no live object remains. -/
def allDead (sys : Sys F) : Bool :=
  sys.slots.all fun os =>
    match os with
    | some sl => sl.is_empty
    | none => true

/-- Calling a virtual member function with argument `x` through slot `s`:
dynamic dispatch on the stored object's dynamic type. -/
def dispatchThrough (sys : Sys F) (s : Nat) (x : Nat) : Option Nat :=
  match (sys.slot s).bind static_ptr.get with
  | some o => some (F.dispatch o.ty x)
  | none => none

/-- The `maxsizeof` helper (src/static_ptr.hpp:255-265), over a list of sizes. -/
def maxsizeof : List Nat → Nat
  | [] => 0
  | [a] => a
  | a :: b :: tl => if a > maxsizeof (b :: tl) then a else maxsizeof (b :: tl)

/-- A four-point concrete element family used for witnesses: an abstract
`shape` base with concrete members `circle` and `square`, and an unrelated
type `alien`. -/
inductive Sh where
  | shape
  | circle
  | square
  | alien
deriving DecidableEq

/-- The witness family: `shape` is a base of `circle` and `square` (and every
type is a base of itself, as `std::is_base_of` has it); `circle` is 8 bytes,
`square` 16, `alien` 100; the dispatched operation distinguishes the dynamic
types. -/
def F0 : Family where
  Ty := Sh
  is_base_of := fun b d =>
    (b == d) || (b == Sh.shape && (d == Sh.circle || d == Sh.square))
  size := fun t =>
    match t with
    | .shape => 4
    | .circle => 8
    | .square => 16
    | .alien => 100
  dispatch := fun t x =>
    match t with
    | .shape => x
    | .circle => 100 + x
    | .square => 200 + x
    | .alien => 300 + x

/- ### List bookkeeping lemmas -/

theorem countP_set_of_get {α : Type} (p : α → Bool) :
    ∀ (l : List α) (i : Nat) (a b : α), l[i]? = some a →
      (l.set i b).countP p + (if p a then 1 else 0)
        = l.countP p + (if p b then 1 else 0) := by
  intro l
  induction l with
  | nil => intro i a b h; simp at h
  | cons x tl ih =>
    intro i a b h
    cases i with
    | zero =>
      simp only [List.getElem?_cons_zero, Option.some_inj] at h
      subst h
      simp [List.countP_cons]
      omega
    | succ j =>
      simp only [List.getElem?_cons_succ] at h
      simp only [List.set_cons_succ, List.countP_cons]
      have := ih j a b h
      omega

theorem updSlot_eq_set {l : List (Option (static_ptr F))} {i : Nat}
    {sl : static_ptr F} (h : l[i]? = some (some sl)) (f : static_ptr F → static_ptr F) :
    updSlot l i f = l.set i (some (f sl)) := by
  unfold updSlot
  rw [h]

theorem getElem?_updSlot_ne {l : List (Option (static_ptr F))} {i j : Nat}
    (f : static_ptr F → static_ptr F) (h : i ≠ j) :
    (updSlot l i f)[j]? = l[j]? := by
  unfold updSlot
  cases hl : l[i]? with
  | none => rfl
  | some os =>
    cases os with
    | none => rfl
    | some sl => exact List.getElem?_set_ne h

theorem slot_eq_iff {sys : Sys F} {i : Nat} {sl : static_ptr F} :
    sys.slot i = some sl ↔ sys.slots[i]? = some (some sl) := by
  unfold Sys.slot
  cases h : sys.slots[i]? with
  | none => simp [Option.join]
  | some os => cases os <;> simp [Option.join]

theorem slot_mk {slots : List (Option (static_ptr F))} {n : Nat} {tr : List (Event F)}
    {i : Nat} : (Sys.mk slots n tr).slot i = slots[i]?.join := rfl

/- ### holdsId lemmas -/

theorem holdsId_of_get_none {sl : static_ptr F} (h : sl.get = none) (i : Nat) :
    holdsId (some sl) i = false := by
  unfold static_ptr.get at h
  unfold holdsId
  cases he : sl.is_empty with
  | true => simp [he]
  | false =>
    rw [he] at h
    simp at h
    simp [he, h]

theorem holdsId_of_get_some {sl : static_ptr F} {o : Obj F} (h : sl.get = some o)
    (i : Nat) : holdsId (some sl) i = (o.id == i) := by
  unfold static_ptr.get at h
  unfold holdsId
  cases he : sl.is_empty with
  | true => rw [he] at h; simp at h
  | false =>
    rw [he] at h
    simp at h
    simp [he, h]

theorem holdsId_of_empty {sl : static_ptr F} (h : sl.is_empty = true) (i : Nat) :
    holdsId (some sl) i = false := by
  unfold holdsId
  simp [h]

/- ### Trace counting lemmas -/

theorem countC_append (tr tr' : List (Event F)) (i : Nat) :
    countC (tr ++ tr') i = countC tr i + countC tr' i :=
  List.countP_append _ _ _

theorem countD_append (tr tr' : List (Event F)) (i : Nat) :
    countD (tr ++ tr') i = countD tr i + countD tr' i :=
  List.countP_append _ _ _

/- ### Characterizations of the operations -/

theorem emplacePriv_spec {sys : Sys F} {s : Nat} {sl : static_ptr F}
    (h : sys.slots[s]? = some (some sl)) (te : F.Ty) (args : List Nat) :
    emplacePriv sys s te args =
      { slots := sys.slots.set s (some { sl with
          storage_lcm := some te,
          storage_obj := some ⟨te, sys.nextId, args⟩,
          is_empty := false }),
        nextId := sys.nextId + 1,
        trace := sys.trace ++ [.lcmWrite s te, .construct s sys.nextId te args] } := by
  simp only [emplacePriv, Sys.upd, updSlot_eq_set h]

theorem transfer_obj_of_dst_missing {sys : Sys F} {d : Nat}
    (hd : sys.slot d = none) (s : Nat) : transfer_obj sys d s = sys := by
  unfold transfer_obj
  rw [hd]

theorem transfer_obj_of_src_missing {sys : Sys F} {s : Nat}
    (hs : sys.slot s = none) (d : Nat) : transfer_obj sys d s = sys := by
  unfold transfer_obj
  rw [hs]
  cases sys.slot d <;> rfl

theorem transfer_obj_of_src_empty {sys : Sys F} {s : Nat} {ss : static_ptr F}
    (hs : sys.slot s = some ss) (ho : ss.get = none) (d : Nat) :
    transfer_obj sys d s = sys := by
  unfold transfer_obj
  rw [hs]
  cases sys.slot d with
  | none => rfl
  | some dd => simp only [ho]

theorem transfer_obj_spec {sys : Sys F} {d s : Nat} {dd ss : static_ptr F}
    {o : Obj F} {lt : F.Ty}
    (hd : sys.slot d = some dd) (hs : sys.slot s = some ss) (hne : d ≠ s)
    (ho : ss.get = some o) (hl : ss.storage_lcm = some lt) :
    transfer_obj sys d s =
      { slots := (sys.slots.set d (some { dd with
            storage_obj := some ⟨lt, sys.nextId, o.val⟩,
            storage_lcm := some lt,
            is_empty := false })).set s (some { ss with
            storage_lcm := some lt,
            is_empty := true }),
        nextId := sys.nextId + 1,
        trace := sys.trace ++ [.construct d sys.nextId lt o.val, .lcmWrite d lt,
          .destroy s (some lt) o.id] } := by
  have hd' : sys.slots[d]? = some (some dd) := slot_eq_iff.mp hd
  have hs' : sys.slots[s]? = some (some ss) := slot_eq_iff.mp hs
  have hdlen : d < sys.slots.length := by
    have := List.getElem?_eq_some_iff.mp hd'
    exact this.1
  have h2 : (sys.slots.set d (some { dd with storage_obj := some ⟨lt, sys.nextId, o.val⟩ }))[d]? = some (some { dd with storage_obj := some ⟨lt, sys.nextId, o.val⟩ }) := by
    rw [List.getElem?_set_self]
    simpa using hdlen
  have h3 : ((sys.slots.set d (some { dd with storage_obj := some ⟨lt, sys.nextId, o.val⟩, storage_lcm := some lt })))[s]? = some (some ss) := by
    rw [List.getElem?_set_ne hne]
    exact hs'
  have h4 : (((sys.slots.set d (some { dd with storage_obj := some ⟨lt, sys.nextId, o.val⟩, storage_lcm := some lt })).set s (some { ss with storage_lcm := some lt, is_empty := true })))[d]? = some (some { dd with storage_obj := some ⟨lt, sys.nextId, o.val⟩, storage_lcm := some lt }) := by
    rw [List.getElem?_set_ne (Ne.symm hne), List.getElem?_set_self]
    simpa using hdlen
  unfold transfer_obj
  rw [hd, hs]
  simp only [ho, hl, Sys.emit, Sys.upd, updSlot_eq_set hd', updSlot_eq_set h2,
    List.set_set, updSlot_eq_set h3, updSlot_eq_set h4]
  rw [List.set_comm _ _ _ (Ne.symm hne), List.set_set]
  simp

theorem moveAssign_of_dst_missing {sys : Sys F} {d : Nat}
    (hd : sys.slot d = none) (s : Nat) : moveAssign sys d s = sys := by
  unfold moveAssign
  rw [hd]

theorem moveAssign_of_dst_empty {sys : Sys F} {d : Nat} {dd : static_ptr F}
    (hd : sys.slot d = some dd) (hget : dd.get = none) (s : Nat) :
    moveAssign sys d s = transfer_obj sys d s := by
  unfold moveAssign
  rw [hd]
  simp only [hget]

theorem moveAssign_of_dst_occupied {sys : Sys F} {d : Nat} {dd : static_ptr F}
    {od : Obj F} (hd : sys.slot d = some dd) (hget : dd.get = some od) (s : Nat) :
    moveAssign sys d s =
      transfer_obj
        { slots := sys.slots.set d (some { dd with is_empty := true }),
          nextId := sys.nextId,
          trace := sys.trace ++ [.destroy d dd.storage_lcm od.id] } d s := by
  unfold moveAssign
  rw [hd]
  simp only [hget, Sys.upd, Sys.emit, updSlot_eq_set (slot_eq_iff.mp hd)]

theorem moveCtor_eq {sys : Sys F} (e : F.Ty) (c : Nat) (s : Nat) :
    moveCtor sys e c s =
      transfer_obj
        { slots := sys.slots ++ [some { elem := e, cap := c }],
          nextId := sys.nextId, trace := sys.trace } sys.slots.length s := rfl

theorem destroySlot_of_missing {sys : Sys F} {s : Nat}
    (hs : sys.slot s = none) : destroySlot sys s = sys := by
  unfold destroySlot
  rw [hs]

theorem destroySlot_of_occupied {sys : Sys F} {s : Nat} {sl : static_ptr F}
    {o : Obj F} (hs : sys.slot s = some sl) (ho : sl.get = some o) :
    destroySlot sys s =
      { slots := sys.slots.set s none, nextId := sys.nextId,
        trace := sys.trace ++ [.destroy s sl.storage_lcm o.id] } := by
  unfold destroySlot
  rw [hs]
  simp only [ho, Sys.emit]

theorem destroySlot_of_empty {sys : Sys F} {s : Nat} {sl : static_ptr F}
    (hs : sys.slot s = some sl) (ho : sl.get = none) :
    destroySlot sys s = { sys with slots := sys.slots.set s none } := by
  unfold destroySlot
  rw [hs]
  simp only [ho]

theorem emplace_of_missing {sys : Sys F} {s : Nat}
    (hs : sys.slot s = none) (te : F.Ty) (args : List Nat) :
    static_ptr.emplace sys s te args = (sys, true) := by
  unfold static_ptr.emplace
  rw [hs]

theorem emplace_of_occupied {sys : Sys F} {s : Nat} {sl : static_ptr F}
    (hs : sys.slot s = some sl) (hne : sl.is_empty = false) (te : F.Ty)
    (args : List Nat) : static_ptr.emplace sys s te args = (sys, false) := by
  unfold static_ptr.emplace
  rw [hs]
  simp [hne, hs]

theorem emplace_of_empty {sys : Sys F} {s : Nat} {sl : static_ptr F}
    (hs : sys.slot s = some sl) (he : sl.is_empty = true) (te : F.Ty)
    (args : List Nat) :
    static_ptr.emplace sys s te args = (emplacePriv sys s te args, false) := by
  have hs' : sys.slots[s]? = some (some sl) := slot_eq_iff.mp hs
  have hslen : s < sys.slots.length := (List.getElem?_eq_some_iff.mp hs').1
  unfold static_ptr.emplace
  rw [hs]
  simp only [he, if_true]
  rw [emplacePriv_spec hs']
  have : (Sys.slot { slots := sys.slots.set s (some { sl with storage_lcm := some te, storage_obj := some ⟨te, sys.nextId, args⟩, is_empty := false }), nextId := sys.nextId + 1, trace := sys.trace ++ [.lcmWrite s te, .construct s sys.nextId te args] } s : Option (static_ptr F)) = some { sl with storage_lcm := some te, storage_obj := some ⟨te, sys.nextId, args⟩, is_empty := false } := by
    rw [slot_eq_iff]
    rw [List.getElem?_set_self]
    simpa using hslen
  rw [this]
  rfl

theorem ctorFromTuple_eq {sys : Sys F} {e : F.Ty} {c : Nat}
    {tup : List (TupElem F)} {ty : F.Ty} (ht : tupleTy tup = some ty) :
    ctorFromTuple sys e c tup =
      make_obj
        { slots := sys.slots ++ [some { elem := e, cap := c }],
          nextId := sys.nextId, trace := sys.trace } sys.slots.length ty tup := by
  unfold ctorFromTuple
  rw [ht]

/- ### The gens index pack -/

theorem gensAux_eq (n : Nat) : ∀ acc : List Nat,
    gensAux (n + 1) acc = List.range' 1 n ++ acc := by
  induction n with
  | zero => intro acc; simp [gensAux]
  | succ m ih =>
    intro acc
    show gensAux (m + 2) acc = _
    unfold gensAux
    rw [ih ((m + 1) :: acc), List.range'_1_concat]
    simp
    omega

theorem gens_succ (n : Nat) : gens (n + 1) = List.range' 1 n := by
  unfold gens
  rw [gensAux_eq]
  simp

theorem range'_map_tupleArg : ∀ (args : List Nat) (k : Nat) (tup : List (TupElem F)),
    (∀ i, i < args.length → tup[k + i]? = some (TupElem.arg (args.getD i 0))) →
    (List.range' k args.length).map (tupleArg tup) = args := by
  intro args
  induction args with
  | nil => intro k tup _; simp
  | cons a as ih =>
    intro k tup h
    have hlen : (a :: as).length = as.length + 1 := rfl
    rw [hlen, List.range'_succ, List.map_cons]
    have h0 : tup[k]? = some (TupElem.arg a) := by
      have := h 0 (by simp)
      simpa using this
    have hhead : tupleArg tup k = a := by
      unfold tupleArg
      rw [h0]
    rw [hhead]
    have htail : (List.range' (k + 1) as.length).map (tupleArg tup) = as := by
      apply ih (k + 1) tup
      intro i hi
      have := h (i + 1) (by simpa using Nat.succ_lt_succ hi)
      have harith : k + (i + 1) = k + 1 + i := by omega
      rw [harith] at this
      simpa using this
    rw [htail]

theorem tupleTy_make_static (t : F.Ty) (args : List Nat) :
    tupleTy (make_static t args) = some t := by
  unfold tupleTy make_static
  simp

theorem make_static_args_extracted (t : F.Ty) (args : List Nat) :
    (gens (make_static t args).length).map (tupleArg (make_static t args)) = args := by
  have hlen : (make_static t args).length = args.length + 1 := by
    unfold make_static
    simp
  rw [hlen, gens_succ]
  apply range'_map_tupleArg
  intro i hi
  unfold make_static
  have : (TupElem.ptrTag t :: args.map TupElem.arg)[1 + i]? = (args.map TupElem.arg)[i]? := by
    have h1 : 1 + i = i + 1 := by omega
    rw [h1]
    exact List.getElem?_cons_succ
  rw [this, List.getElem?_map, List.getElem?_eq_getElem hi]
  simp [List.getD_eq_getElem?_getD, List.getElem?_eq_getElem hi]

/- ### Counting individual events -/

theorem countC_snoc_construct (tr : List (Event F)) (s j : Nat) (ty : F.Ty)
    (v : List Nat) (i : Nat) :
    countC (tr ++ [.construct s j ty v]) i = countC tr i + (if j = i then 1 else 0) := by
  unfold countC
  rw [List.countP_append, List.countP_singleton]
  simp [isConstructOf]

theorem countC_snoc_lcmWrite (tr : List (Event F)) (s : Nat) (ty : F.Ty) (i : Nat) :
    countC (tr ++ [.lcmWrite s ty]) i = countC tr i := by
  unfold countC
  rw [List.countP_append, List.countP_singleton]
  simp [isConstructOf]

theorem countC_snoc_destroy (tr : List (Event F)) (s : Nat) (lt : Option F.Ty)
    (j : Nat) (i : Nat) :
    countC (tr ++ [.destroy s lt j]) i = countC tr i := by
  unfold countC
  rw [List.countP_append, List.countP_singleton]
  simp [isConstructOf]

theorem countD_snoc_construct (tr : List (Event F)) (s j : Nat) (ty : F.Ty)
    (v : List Nat) (i : Nat) :
    countD (tr ++ [.construct s j ty v]) i = countD tr i := by
  unfold countD
  rw [List.countP_append, List.countP_singleton]
  simp [isDestroyOf]

theorem countD_snoc_lcmWrite (tr : List (Event F)) (s : Nat) (ty : F.Ty) (i : Nat) :
    countD (tr ++ [.lcmWrite s ty]) i = countD tr i := by
  unfold countD
  rw [List.countP_append, List.countP_singleton]
  simp [isDestroyOf]

theorem countD_snoc_destroy (tr : List (Event F)) (s : Nat) (lt : Option F.Ty)
    (j : Nat) (i : Nat) :
    countD (tr ++ [.destroy s lt j]) i = countD tr i + (if j = i then 1 else 0) := by
  unfold countD
  rw [List.countP_append, List.countP_singleton]
  simp [isDestroyOf]

/- ### The lifetime-accounting invariant -/

/-- Reachability invariant backing the destruction-count claim: every
construction so far is accounted for by either a destruction or a currently
live occupant; object identities at or above `nextId` are unused; and no
identity is constructed twice. -/
structure Inv (sys : Sys F) : Prop where
  balance : ∀ i, countC sys.trace i = countD sys.trace i + liveCnt sys i
  freshC : ∀ i, sys.nextId ≤ i → countC sys.trace i = 0
  freshL : ∀ i, sys.nextId ≤ i → liveCnt sys i = 0
  onceC : ∀ i, countC sys.trace i ≤ 1

theorem inv_initSys : Inv (initSys F) := by
  constructor <;> intro i <;> simp [initSys, countC, countD, liveCnt]

theorem liveCnt_append_dead {sys : Sys F} {os : Option (static_ptr F)}
    (h : ∀ i, holdsId os i = false) (n : Nat) (tr : List (Event F)) (i : Nat) :
    liveCnt { slots := sys.slots ++ [os], nextId := n, trace := tr } i
      = liveCnt sys i := by
  unfold liveCnt
  rw [List.countP_append, List.countP_singleton]
  simp [h i]

theorem inv_mkEmpty {sys : Sys F} (h : Inv sys) (e : F.Ty) (c : Nat) :
    Inv { sys with slots := sys.slots ++ [some { elem := e, cap := c }] } := by
  have hdead : ∀ i, holdsId (some ({ elem := e, cap := c } : static_ptr F)) i = false := by
    intro i
    exact holdsId_of_empty rfl i
  constructor
  · intro i
    have := @liveCnt_append_dead F sys _ hdead sys.nextId sys.trace i
    simpa [this] using h.balance i
  · intro i hi
    exact h.freshC i hi
  · intro i hi
    have := @liveCnt_append_dead F sys _ hdead sys.nextId sys.trace i
    simpa [this] using h.freshL i hi
  · intro i
    exact h.onceC i

theorem inv_emplacePriv {sys : Sys F} {s : Nat} {sl : static_ptr F}
    (h : Inv sys) (hsl : sys.slots[s]? = some (some sl)) (hget : sl.get = none)
    (te : F.Ty) (args : List Nat) : Inv (emplacePriv sys s te args) := by
  rw [emplacePriv_spec hsl]
  have hlive : ∀ i,
      liveCnt { slots := sys.slots.set s (some { sl with storage_lcm := some te, storage_obj := some ⟨te, sys.nextId, args⟩, is_empty := false }), nextId := sys.nextId + 1, trace := sys.trace ++ [Event.lcmWrite s te, Event.construct s sys.nextId te args] } i + (if holdsId (some sl) i then 1 else 0)
        = liveCnt sys i + (if holdsId (some ({ sl with storage_lcm := some te, storage_obj := some ⟨te, sys.nextId, args⟩, is_empty := false } : static_ptr F)) i then 1 else 0) := by
    intro i
    exact countP_set_of_get _ sys.slots s _ _ hsl
  have htr : ∀ i, countC (sys.trace ++ [Event.lcmWrite s te, Event.construct s sys.nextId te args]) i = countC sys.trace i + (if sys.nextId = i then 1 else 0) := by
    intro i
    have : sys.trace ++ [Event.lcmWrite s te, Event.construct s sys.nextId te args] = (sys.trace ++ [Event.lcmWrite s te]) ++ [Event.construct s sys.nextId te args] := by
      simp
    rw [this, countC_snoc_construct, countC_snoc_lcmWrite]
  have htrD : ∀ i, countD (sys.trace ++ [Event.lcmWrite s te, Event.construct s sys.nextId te args]) i = countD sys.trace i := by
    intro i
    have : sys.trace ++ [Event.lcmWrite s te, Event.construct s sys.nextId te args] = (sys.trace ++ [Event.lcmWrite s te]) ++ [Event.construct s sys.nextId te args] := by
      simp
    rw [this, countD_snoc_construct, countD_snoc_lcmWrite]
  have hold : ∀ i, holdsId (some sl) i = false := fun i => holdsId_of_get_none hget i
  have hnew : ∀ i, holdsId (some ({ sl with storage_lcm := some te, storage_obj := some ⟨te, sys.nextId, args⟩, is_empty := false } : static_ptr F)) i = (sys.nextId == i) := by
    intro i
    unfold holdsId
    simp
  constructor
  · intro i
    try dsimp only
    have hb := h.balance i
    have hl := hlive i
    try dsimp only at hl
    rw [hold i, hnew i] at hl
    rw [htr i, htrD i]
    by_cases hi : sys.nextId = i
    · simp [hi] at hl ⊢
      omega
    · simp [hi, Ne.symm hi] at hl ⊢
      omega
  · intro i hi
    try dsimp only at hi ⊢
    rw [htr i]
    have h1 : countC sys.trace i = 0 := h.freshC i (by omega)
    have h2 : sys.nextId ≠ i := by omega
    simp [h1, h2]
  · intro i hi
    try dsimp only at hi ⊢
    have hl := hlive i
    try dsimp only at hl
    rw [hold i, hnew i] at hl
    have h2 : (sys.nextId == i) = false := by
      simp
      omega
    have h3 : liveCnt sys i = 0 := h.freshL i (by omega)
    rw [h2] at hl
    simp [h3] at hl
    simpa using hl
  · intro i
    try dsimp only
    rw [htr i]
    by_cases hi : sys.nextId = i
    · have h1 : countC sys.trace i = 0 := h.freshC i (by omega)
      simp [hi, h1]
    · simp [hi]
      exact h.onceC i

theorem transfer_obj_of_src_no_lcm {sys : Sys F} {s : Nat} {ss : static_ptr F}
    {o : Obj F} (hs : sys.slot s = some ss) (ho : ss.get = some o)
    (hl : ss.storage_lcm = none) (d : Nat) : transfer_obj sys d s = sys := by
  unfold transfer_obj
  rw [hs]
  cases sys.slot d with
  | none => rfl
  | some dd => simp only [ho, hl]

theorem countC_snoc3 (tr : List (Event F)) (d s j j' : Nat) (ty ty' : F.Ty)
    (lt : Option F.Ty) (v : List Nat) (i : Nat) :
    countC (tr ++ [.construct d j ty v, .lcmWrite d ty', .destroy s lt j']) i
      = countC tr i + (if j = i then 1 else 0) := by
  have hsplit : tr ++ [Event.construct d j ty v, Event.lcmWrite d ty', Event.destroy s lt j']
      = ((tr ++ [Event.construct d j ty v]) ++ [Event.lcmWrite d ty']) ++ [Event.destroy s lt j'] := by
    simp
  rw [hsplit, countC_snoc_destroy, countC_snoc_lcmWrite, countC_snoc_construct]

theorem countD_snoc3 (tr : List (Event F)) (d s j j' : Nat) (ty ty' : F.Ty)
    (lt : Option F.Ty) (v : List Nat) (i : Nat) :
    countD (tr ++ [.construct d j ty v, .lcmWrite d ty', .destroy s lt j']) i
      = countD tr i + (if j' = i then 1 else 0) := by
  have hsplit : tr ++ [Event.construct d j ty v, Event.lcmWrite d ty', Event.destroy s lt j']
      = ((tr ++ [Event.construct d j ty v]) ++ [Event.lcmWrite d ty']) ++ [Event.destroy s lt j'] := by
    simp
  rw [hsplit, countD_snoc_destroy, countD_snoc_lcmWrite, countD_snoc_construct]

theorem ind_beq (x i : Nat) :
    (if (x == i) = true then 1 else 0) = (if x = i then 1 else 0) := by simp

theorem ind_false : (if false = true then 1 else 0) = 0 := rfl

theorem holdsId_none (i : Nat) : holdsId (none : Option (static_ptr F)) i = false := rfl

theorem inv_transfer_obj {sys : Sys F} (d s : Nat) (h : Inv sys)
    (hdget : ∀ dd, sys.slot d = some dd → dd.get = none) :
    Inv (transfer_obj sys d s) := by
  cases hd : sys.slot d with
  | none => rw [transfer_obj_of_dst_missing hd]; exact h
  | some dd =>
    cases hs : sys.slot s with
    | none => rw [transfer_obj_of_src_missing hs]; exact h
    | some ss =>
      cases ho : ss.get with
      | none => rw [transfer_obj_of_src_empty hs ho]; exact h
      | some o =>
        cases hl : ss.storage_lcm with
        | none => rw [transfer_obj_of_src_no_lcm hs ho hl]; exact h
        | some lt =>
          have hne : d ≠ s := by
            intro he
            subst he
            rw [hd] at hs
            have hds : dd = ss := Option.some.inj hs
            have h0 := hdget dd hd
            rw [hds, ho] at h0
            exact Option.noConfusion h0
          have hd' : sys.slots[d]? = some (some dd) := slot_eq_iff.mp hd
          have hs' : sys.slots[s]? = some (some ss) := slot_eq_iff.mp hs
          rw [transfer_obj_spec hd hs hne ho hl]
          have hstep1 := fun i => countP_set_of_get (fun os => holdsId os i) sys.slots d (some dd) (some { dd with storage_obj := some ⟨lt, sys.nextId, o.val⟩, storage_lcm := some lt, is_empty := false }) hd'
          have hl1s : (sys.slots.set d (some { dd with storage_obj := some ⟨lt, sys.nextId, o.val⟩, storage_lcm := some lt, is_empty := false }))[s]? = some (some ss) := by
            rw [List.getElem?_set_ne hne]
            exact hs'
          have hstep2 := fun i => countP_set_of_get (fun os => holdsId os i) _ s (some ss) (some { ss with storage_lcm := some lt, is_empty := true }) hl1s
          have holddd : ∀ i, holdsId (some dd) i = false :=
            fun i => holdsId_of_get_none (hdget dd hd) i
          have holdD : ∀ i, holdsId (some ({ dd with storage_obj := some ⟨lt, sys.nextId, o.val⟩, storage_lcm := some lt, is_empty := false } : static_ptr F)) i = (sys.nextId == i) := by
            intro i
            unfold holdsId
            simp
          have holdss : ∀ i, holdsId (some ss) i = (o.id == i) :=
            fun i => holdsId_of_get_some ho i
          have holdS : ∀ i, holdsId (some ({ ss with storage_lcm := some lt, is_empty := true } : static_ptr F)) i = false :=
            fun i => holdsId_of_empty rfl i
          constructor
          · intro i
            try dsimp only
            rw [countC_snoc3, countD_snoc3]
            have hb := h.balance i
            have h1 := hstep1 i
            have h2 := hstep2 i
            rw [holddd i, holdD i] at h1
            rw [holdss i, holdS i] at h2
            unfold liveCnt at hb ⊢
            try dsimp only
            by_cases hi1 : sys.nextId = i <;> by_cases hi2 : o.id = i <;>
              simp [hi1, hi2] at h1 h2 ⊢ <;> omega
          · intro i hi
            try dsimp only at hi ⊢
            rw [countC_snoc3]
            have h1 : countC sys.trace i = 0 := h.freshC i (by omega)
            have h2 : sys.nextId ≠ i := by omega
            simp [h1, h2]
          · intro i hi
            try dsimp only at hi ⊢
            have h1 := hstep1 i
            have h2 := hstep2 i
            rw [holddd i, holdD i] at h1
            rw [holdss i, holdS i] at h2
            have h3 : liveCnt sys i = 0 := h.freshL i (by omega)
            simp only [ind_false, ind_beq] at h1 h2
            rw [if_neg (show ¬ sys.nextId = i by omega)] at h1
            unfold liveCnt at h3 ⊢
            try dsimp only
            omega
          · intro i
            try dsimp only
            rw [countC_snoc3]
            by_cases hi : sys.nextId = i
            · have h1 : countC sys.trace i = 0 := h.freshC i (by omega)
              simp [hi, h1]
            · simp [hi]
              exact h.onceC i

theorem inv_releaseDest {sys : Sys F} {d : Nat} {dd : static_ptr F} {od : Obj F}
    (h : Inv sys) (hd' : sys.slots[d]? = some (some dd)) (hget : dd.get = some od) :
    Inv { slots := sys.slots.set d (some { dd with is_empty := true }),
          nextId := sys.nextId,
          trace := sys.trace ++ [.destroy d dd.storage_lcm od.id] } := by
  have hstep := fun i => countP_set_of_get (fun os => holdsId os i) sys.slots d (some dd) (some { dd with is_empty := true }) hd'
  have holddd : ∀ i, holdsId (some dd) i = (od.id == i) :=
    fun i => holdsId_of_get_some hget i
  have holdD : ∀ i, holdsId (some ({ dd with is_empty := true } : static_ptr F)) i = false :=
    fun i => holdsId_of_empty rfl i
  constructor
  · intro i
    try dsimp only
    rw [countD_snoc_destroy, countC_snoc_destroy]
    have hb := h.balance i
    have h1 := hstep i
    rw [holddd i, holdD i] at h1
    simp only [ind_false, ind_beq] at h1
    unfold liveCnt at hb ⊢
    try dsimp only
    omega
  · intro i hi
    try dsimp only at hi ⊢
    rw [countC_snoc_destroy]
    exact h.freshC i (by omega)
  · intro i hi
    try dsimp only at hi ⊢
    have h1 := hstep i
    rw [holddd i, holdD i] at h1
    simp only [ind_false, ind_beq] at h1
    have h3 : liveCnt sys i = 0 := h.freshL i (by omega)
    unfold liveCnt at h3 ⊢
    try dsimp only
    omega
  · intro i
    try dsimp only
    rw [countC_snoc_destroy]
    exact h.onceC i

theorem inv_destroySlot {sys : Sys F} (s : Nat) (h : Inv sys) :
    Inv (destroySlot sys s) := by
  cases hs : sys.slot s with
  | none => rw [destroySlot_of_missing hs]; exact h
  | some sl =>
    have hs' : sys.slots[s]? = some (some sl) := slot_eq_iff.mp hs
    have hstep := fun i => countP_set_of_get (fun os => holdsId os i) sys.slots s (some sl) none hs'
    cases ho : sl.get with
    | some o =>
      rw [destroySlot_of_occupied hs ho]
      have holdsl : ∀ i, holdsId (some sl) i = (o.id == i) :=
        fun i => holdsId_of_get_some ho i
      constructor
      · intro i
        try dsimp only
        rw [countD_snoc_destroy, countC_snoc_destroy]
        have hb := h.balance i
        have h1 := hstep i
        rw [holdsl i, holdsId_none i] at h1
        simp only [ind_false, ind_beq] at h1
        unfold liveCnt at hb ⊢
        try dsimp only
        omega
      · intro i hi
        try dsimp only at hi ⊢
        rw [countC_snoc_destroy]
        exact h.freshC i (by omega)
      · intro i hi
        try dsimp only at hi ⊢
        have h1 := hstep i
        rw [holdsl i, holdsId_none i] at h1
        simp only [ind_false, ind_beq] at h1
        have h3 : liveCnt sys i = 0 := h.freshL i (by omega)
        unfold liveCnt at h3 ⊢
        try dsimp only
        omega
      · intro i
        try dsimp only
        rw [countC_snoc_destroy]
        exact h.onceC i
    | none =>
      rw [destroySlot_of_empty hs ho]
      have holdsl : ∀ i, holdsId (some sl) i = false :=
        fun i => holdsId_of_get_none ho i
      constructor
      · intro i
        try dsimp only
        have hb := h.balance i
        have h1 := hstep i
        rw [holdsl i, holdsId_none i] at h1
        simp only [ind_false] at h1
        unfold liveCnt at hb ⊢
        try dsimp only
        omega
      · intro i hi
        try dsimp only at hi ⊢
        exact h.freshC i (by omega)
      · intro i hi
        try dsimp only at hi ⊢
        have h1 := hstep i
        rw [holdsl i, holdsId_none i] at h1
        simp only [ind_false] at h1
        have h3 : liveCnt sys i = 0 := h.freshL i (by omega)
        unfold liveCnt at h3 ⊢
        try dsimp only
        omega
      · intro i
        try dsimp only
        exact h.onceC i

theorem empty_slot_get_none {e : F.Ty} {c : Nat} :
    (({ elem := e, cap := c } : static_ptr F)).get = none := by
  unfold static_ptr.get
  simp

theorem inv_runOp {sys : Sys F} (h : Inv sys) (op : Op F) : Inv (runOp sys op) := by
  cases op with
  | mkEmpty e c => exact inv_mkEmpty h e c
  | ctorMake e c tup =>
    show Inv (ctorFromTuple sys e c tup)
    cases ht : tupleTy tup with
    | none =>
      unfold ctorFromTuple
      rw [ht]
      exact h
    | some ty =>
      rw [ctorFromTuple_eq ht]
      unfold make_obj
      apply inv_emplacePriv (inv_mkEmpty h e c)
      · show (sys.slots ++ [some { elem := e, cap := c }])[sys.slots.length]? = _
        rw [List.getElem?_concat_length]
      · exact empty_slot_get_none
  | emplaceOp s te args =>
    show Inv (static_ptr.emplace sys s te args).1
    cases hs : sys.slot s with
    | none => rw [emplace_of_missing hs]; exact h
    | some sl =>
      cases he : sl.is_empty with
      | true =>
        rw [emplace_of_empty hs he]
        apply inv_emplacePriv h (slot_eq_iff.mp hs)
        unfold static_ptr.get
        simp [he]
      | false =>
        rw [emplace_of_occupied hs he]
        exact h
  | moveCtorOp e c src =>
    show Inv (moveCtor sys e c src)
    rw [moveCtor_eq]
    apply inv_transfer_obj _ _ (inv_mkEmpty h e c)
    intro dd hdd
    rw [slot_eq_iff] at hdd
    try dsimp only at hdd
    rw [List.getElem?_concat_length] at hdd
    have : ({ elem := e, cap := c } : static_ptr F) = dd := by
      have := Option.some.inj hdd
      exact Option.some.inj this
    rw [← this]
    exact empty_slot_get_none
  | moveAssignOp d s =>
    show Inv (moveAssign sys d s)
    cases hd : sys.slot d with
    | none => rw [moveAssign_of_dst_missing hd]; exact h
    | some dd =>
      cases hget : dd.get with
      | none =>
        rw [moveAssign_of_dst_empty hd hget]
        apply inv_transfer_obj _ _ h
        intro dd' hdd'
        rw [hd] at hdd'
        rw [← Option.some.inj hdd']
        exact hget
      | some od =>
        rw [moveAssign_of_dst_occupied hd hget]
        apply inv_transfer_obj _ _ (inv_releaseDest h (slot_eq_iff.mp hd) hget)
        intro dd' hdd'
        rw [slot_eq_iff] at hdd'
        try dsimp only at hdd'
        have hdlen : d < sys.slots.length := (List.getElem?_eq_some_iff.mp (slot_eq_iff.mp hd)).1
        rw [List.getElem?_set_self (by simpa using hdlen)] at hdd'
        have : ({ dd with is_empty := true } : static_ptr F) = dd' :=
          Option.some.inj (Option.some.inj hdd')
        rw [← this]
        unfold static_ptr.get
        simp
  | destroyOp s => exact inv_destroySlot s h

theorem inv_runOps {sys : Sys F} (h : Inv sys) (ops : List (Op F)) :
    Inv (runOps sys ops) := by
  induction ops generalizing sys with
  | nil => exact h
  | cons op tl ih => exact ih (inv_runOp h op)

theorem liveCnt_of_allDead {sys : Sys F} (h : allDead sys = true) (i : Nat) :
    liveCnt sys i = 0 := by
  unfold allDead at h
  rw [List.all_eq_true] at h
  unfold liveCnt
  rw [List.countP_eq_zero]
  intro os hos
  have := h os hos
  cases os with
  | none => simp [holdsId]
  | some sl =>
    simp at this
    simp [holdsId_of_empty this]

/- ### Claim theorems -/

/-- C1: for any sequence of slot constructions, emplacements, cross-slot
transfers and slot destructions after which no live slot remains, every
concrete object constructed into a slot is destroyed exactly once — a
construction count of at most one per identity, and a destruction count equal
to the construction count (so never zero and never two for a constructed
object). -/
theorem destruction_count_invariant (F : Family) (ops : List (Op F)) (i : Nat)
    (h : allDead (runOps (initSys F) ops) = true) :
    countC (runOps (initSys F) ops).trace i ≤ 1 ∧
    countD (runOps (initSys F) ops).trace i = countC (runOps (initSys F) ops).trace i := by
  have hinv := inv_runOps inv_initSys ops
  refine ⟨hinv.onceC i, ?_⟩
  have hb := hinv.balance i
  have hl := liveCnt_of_allDead h i
  omega

/-- Witness for C1: a concrete program — construct a square via `make_static`,
move-construct it into a second slot, move-assign into a third, destroy all
three slots — ends with no live slot, and object identity 0 is constructed
once and destroyed once. -/
theorem destruction_count_invariant_witness :
    allDead (runOps (initSys F0) [Op.ctorMake Sh.shape 16 (make_static Sh.square [4]), Op.moveCtorOp Sh.shape 16 0, Op.mkEmpty Sh.shape 16, Op.moveAssignOp 2 1, Op.destroyOp 0, Op.destroyOp 1, Op.destroyOp 2]) = true ∧
    (countC (runOps (initSys F0) [Op.ctorMake Sh.shape 16 (make_static Sh.square [4]), Op.moveCtorOp Sh.shape 16 0, Op.mkEmpty Sh.shape 16, Op.moveAssignOp 2 1, Op.destroyOp 0, Op.destroyOp 1, Op.destroyOp 2]).trace 0 ≤ 1 ∧
     countD (runOps (initSys F0) [Op.ctorMake Sh.shape 16 (make_static Sh.square [4]), Op.moveCtorOp Sh.shape 16 0, Op.mkEmpty Sh.shape 16, Op.moveAssignOp 2 1, Op.destroyOp 0, Op.destroyOp 1, Op.destroyOp 2]).trace 0
       = countC (runOps (initSys F0) [Op.ctorMake Sh.shape 16 (make_static Sh.square [4]), Op.moveCtorOp Sh.shape 16 0, Op.mkEmpty Sh.shape 16, Op.moveAssignOp 2 1, Op.destroyOp 0, Op.destroyOp 1, Op.destroyOp 2]).trace 0) :=
  ⟨by decide, destruction_count_invariant F0 [Op.ctorMake Sh.shape 16 (make_static Sh.square [4]), Op.moveCtorOp Sh.shape 16 0, Op.mkEmpty Sh.shape 16, Op.moveAssignOp 2 1, Op.destroyOp 0, Op.destroyOp 1, Op.destroyOp 2] 0 (by decide)⟩

/-- C5 counterexample: on an empty slot, `emplace` returns `false` although
the slot is occupied after the call, so the returned boolean is not the
post-call occupancy. -/
theorem emplace_return_not_occupancy_counterexample :
    ¬ ((static_ptr.emplace (runOp (initSys F0) (Op.mkEmpty Sh.shape 16)) 0 Sh.circle []).2
        = ((((static_ptr.emplace (runOp (initSys F0) (Op.mkEmpty Sh.shape 16)) 0 Sh.circle []).1.slot 0).map (fun sl => !sl.is_empty)).getD false)) := by
  decide

/-- C5 (amended): `emplace<T>` returns the slot's post-call emptiness flag —
the negation of occupancy — and since the slot is always occupied after the
call (either freshly emplaced or left holding its previous object), the
returned boolean is always `false`. -/
theorem emplace_returns_post_call_emptiness {F : Family} {sys : Sys F} {s : Nat}
    {sl : static_ptr F} (hs : sys.slot s = some sl) (te : F.Ty) (args : List Nat) :
    ∃ sl', ((static_ptr.emplace sys s te args).1).slot s = some sl' ∧
      (static_ptr.emplace sys s te args).2 = sl'.is_empty ∧
      (static_ptr.emplace sys s te args).2 = false := by
  cases he : sl.is_empty with
  | false =>
    rw [emplace_of_occupied hs he]
    exact ⟨sl, hs, he.symm, rfl⟩
  | true =>
    rw [emplace_of_empty hs he]
    have hs' : sys.slots[s]? = some (some sl) := slot_eq_iff.mp hs
    have hslen : s < sys.slots.length := (List.getElem?_eq_some_iff.mp hs').1
    rw [emplacePriv_spec hs']
    refine ⟨{ sl with storage_lcm := some te, storage_obj := some ⟨te, sys.nextId, args⟩, is_empty := false }, ?_, rfl, rfl⟩
    rw [slot_eq_iff]
    try dsimp only
    rw [List.getElem?_set_self]
    simpa using hslen

/-- Witness for C5's amended statement: on a concrete single-slot state,
`emplace` returns exactly the post-call `is_empty` flag, namely `false`. -/
theorem emplace_returns_post_call_emptiness_witness :
    ∃ sl', ((static_ptr.emplace (runOp (initSys F0) (Op.mkEmpty Sh.shape 16)) 0 Sh.circle [7]).1).slot 0 = some sl' ∧
      (static_ptr.emplace (runOp (initSys F0) (Op.mkEmpty Sh.shape 16)) 0 Sh.circle [7]).2 = sl'.is_empty ∧
      (static_ptr.emplace (runOp (initSys F0) (Op.mkEmpty Sh.shape 16)) 0 Sh.circle [7]).2 = false :=
  @emplace_returns_post_call_emptiness F0 (runOp (initSys F0) (Op.mkEmpty Sh.shape 16))
    0 ⟨Sh.shape, 16, none, none, true⟩ (by rfl) Sh.circle [7]

/-- C6: the claim that constructing/emplacing a too-big `T` fails to compile
does not hold of the code: the emplace path's only static gate is
`std::is_base_of` (src/static_ptr.hpp:78-84), with no size constraint, so a
related type whose size exceeds the capacity passes the compile-time check and
is placement-constructed into the 8-byte buffer at runtime (a silent buffer
overflow): `square` of size 16 into a capacity-8 slot. -/
theorem emplace_oversized_accepted :
    emplace_compiles (F := F0) Sh.shape Sh.square = true ∧
    8 < F0.size Sh.square ∧
    (static_ptr.emplace (runOp (initSys F0) (Op.mkEmpty Sh.shape 8)) 0 Sh.square [4]).1.slot 0
      = some ⟨Sh.shape, 8, some ⟨Sh.square, 0, [4]⟩, some Sh.square, false⟩ := by
  refine ⟨rfl, by decide, by rfl⟩

/-- C7: cross-slot transfer is accepted at compile time exactly when the
destination capacity is at least the source capacity and the destination
element type is a base of (or equal to) the source element type — for both the
move-assignment and the cross-variant move-construction. -/
theorem transfer_static_preconditions_iff {F : Family} {sys : Sys F} {d s : Nat}
    {dd ss : static_ptr F} (hd : sys.slot d = some dd) (hs : sys.slot s = some ss) :
    (wfOp sys (Op.moveAssignOp d s) = true
        ↔ (ss.cap ≤ dd.cap ∧ F.is_base_of dd.elem ss.elem = true)) ∧
    ∀ e c, (wfOp sys (Op.moveCtorOp e c s) = true
        ↔ (ss.cap ≤ c ∧ F.is_base_of e ss.elem = true)) := by
  constructor
  · simp [wfOp, hd, hs, transfer_compiles]
  · intro e c
    simp [wfOp, hs, transfer_compiles]

/-- Witness for C7 on a concrete two-slot state: assigning a 16-byte `square`
slot into a capacity-16 destination is accepted, and the iff instantiates to a
true statement; a capacity-8 destination for the move construction is
rejected. -/
theorem transfer_static_preconditions_iff_witness :
    ((wfOp (runOps (initSys F0) [Op.mkEmpty Sh.shape 16, Op.ctorMake Sh.shape 16 (make_static Sh.square [4])]) (Op.moveAssignOp 0 1) = true
        ↔ ((16 : Nat) ≤ 16 ∧ F0.is_base_of Sh.shape Sh.shape = true)) ∧
     ∀ e c, (wfOp (runOps (initSys F0) [Op.mkEmpty Sh.shape 16, Op.ctorMake Sh.shape 16 (make_static Sh.square [4])]) (Op.moveCtorOp e c 1) = true
        ↔ ((16 : Nat) ≤ c ∧ F0.is_base_of e Sh.shape = true))) :=
  @transfer_static_preconditions_iff F0
    (runOps (initSys F0) [Op.mkEmpty Sh.shape 16, Op.ctorMake Sh.shape 16 (make_static Sh.square [4])])
    0 1 ⟨Sh.shape, 16, none, none, true⟩
    ⟨Sh.shape, 16, some ⟨Sh.square, 0, [4]⟩, some Sh.square, false⟩ (by rfl) (by rfl)

/-- C8: calling `emplace<T>` on an occupied slot is a no-op: the entire system
state (all slots and the event trace, hence every constructor and destructor
invocation) is unchanged, and the call returns `false`. -/
theorem emplace_on_occupied_is_noop {F : Family} {sys : Sys F} {s : Nat}
    {sl : static_ptr F} (hs : sys.slot s = some sl) (hocc : sl.is_empty = false)
    (te : F.Ty) (args : List Nat) :
    static_ptr.emplace sys s te args = (sys, false) :=
  emplace_of_occupied hs hocc te args

/-- Witness for C8: emplacing a `circle` into a slot already holding a
`square` changes nothing. -/
theorem emplace_on_occupied_is_noop_witness :
    static_ptr.emplace (runOp (initSys F0) (Op.ctorMake Sh.shape 16 (make_static Sh.square [4]))) 0 Sh.circle [7]
      = (runOp (initSys F0) (Op.ctorMake Sh.shape 16 (make_static Sh.square [4])), false) :=
  @emplace_on_occupied_is_noop F0
    (runOp (initSys F0) (Op.ctorMake Sh.shape 16 (make_static Sh.square [4])))
    0 ⟨Sh.shape, 16, some ⟨Sh.square, 0, [4]⟩, some Sh.square, false⟩
    (by rfl) (by rfl) Sh.circle [7]

/-- C3: transfer is destructive on the source: for every occupied (coherent)
slot `s`, after a move-construction of a fresh slot from it, or a
move-assignment of it into any other existing slot, the source's `get()`
yields the null-equivalent and the destination holds an object. -/
theorem transfer_destructive_on_source {F : Family} {sys : Sys F} {s : Nat}
    {ss : static_ptr F} {o : Obj F} {lt : F.Ty}
    (hs : sys.slot s = some ss) (hocc : ss.is_empty = false)
    (ho : ss.storage_obj = some o) (hl : ss.storage_lcm = some lt) :
    (∀ e c, ((moveCtor sys e c s).slot s).bind static_ptr.get = none ∧
      ∃ ob, ((moveCtor sys e c s).slot sys.slots.length).bind static_ptr.get = some ob) ∧
    (∀ d dd, sys.slot d = some dd → d ≠ s →
      ((moveAssign sys d s).slot s).bind static_ptr.get = none ∧
      ∃ ob, ((moveAssign sys d s).slot d).bind static_ptr.get = some ob) := by
  have hget : ss.get = some o := by
    unfold static_ptr.get
    simp [hocc, ho]
  have hs' : sys.slots[s]? = some (some ss) := slot_eq_iff.mp hs
  have hslen : s < sys.slots.length := (List.getElem?_eq_some_iff.mp hs').1
  constructor
  · intro e c
    rw [moveCtor_eq]
    have hd1 : (Sys.mk (sys.slots ++ [some { elem := e, cap := c }]) sys.nextId sys.trace).slot sys.slots.length = some { elem := e, cap := c } := by
      rw [slot_mk, List.getElem?_concat_length]
      rfl
    have hs1 : (Sys.mk (sys.slots ++ [some { elem := e, cap := c }]) sys.nextId sys.trace).slot s = some ss := by
      rw [slot_mk, List.getElem?_append_left hslen]
      exact congrArg Option.join hs' |>.trans rfl
    have hne : sys.slots.length ≠ s := by omega
    rw [transfer_obj_spec hd1 hs1 hne hget hl]
    constructor
    · rw [slot_mk]
      try dsimp only
      rw [List.getElem?_set_self (by simp; omega)]
      simp [Option.join, static_ptr.get]
    · refine ⟨⟨lt, sys.nextId, o.val⟩, ?_⟩
      rw [slot_mk]
      try dsimp only
      rw [List.getElem?_set_ne (by omega), List.getElem?_set_self (by simp)]
      simp [Option.join, static_ptr.get]
  · intro d dd hd hne
    have hd' : sys.slots[d]? = some (some dd) := slot_eq_iff.mp hd
    have hdlen : d < sys.slots.length := (List.getElem?_eq_some_iff.mp hd').1
    cases hddget : dd.get with
    | none =>
      rw [moveAssign_of_dst_empty hd hddget]
      rw [transfer_obj_spec hd hs hne hget hl]
      constructor
      · rw [slot_mk]
        try dsimp only
        rw [List.getElem?_set_self (by simpa using hslen)]
        simp [Option.join, static_ptr.get]
      · refine ⟨⟨lt, sys.nextId, o.val⟩, ?_⟩
        rw [slot_mk]
        try dsimp only
        rw [List.getElem?_set_ne (Ne.symm hne), List.getElem?_set_self (by simpa using hdlen)]
        simp [Option.join, static_ptr.get]
    | some od =>
      rw [moveAssign_of_dst_occupied hd hddget]
      have hdm : (Sys.mk (sys.slots.set d (some { dd with is_empty := true })) sys.nextId (sys.trace ++ [Event.destroy d dd.storage_lcm od.id])).slot d = some { dd with is_empty := true } := by
        rw [slot_mk]
        try dsimp only
        rw [List.getElem?_set_self (by simpa using hdlen)]
        rfl
      have hsm : (Sys.mk (sys.slots.set d (some { dd with is_empty := true })) sys.nextId (sys.trace ++ [Event.destroy d dd.storage_lcm od.id])).slot s = some ss := by
        rw [slot_mk]
        try dsimp only
        rw [List.getElem?_set_ne hne]
        exact congrArg Option.join hs' |>.trans rfl
      rw [transfer_obj_spec hdm hsm hne hget hl]
      constructor
      · rw [slot_mk]
        try dsimp only
        rw [List.getElem?_set_self (by simpa using hslen)]
        simp [Option.join, static_ptr.get]
      · refine ⟨⟨lt, sys.nextId, o.val⟩, ?_⟩
        rw [slot_mk]
        try dsimp only
        rw [List.getElem?_set_ne (Ne.symm hne), List.getElem?_set_self (by simpa using hdlen)]
        simp [Option.join, static_ptr.get]

/-- Witness for C3 on a concrete state: a slot holding a square, moved into a
fresh slot and move-assigned into an empty slot. -/
theorem transfer_destructive_on_source_witness :
    ((∀ e c, ((moveCtor (runOps (initSys F0) [Op.mkEmpty Sh.shape 16, Op.ctorMake Sh.shape 16 (make_static Sh.square [4])]) e c 1).slot 1).bind static_ptr.get = none ∧
      ∃ ob, ((moveCtor (runOps (initSys F0) [Op.mkEmpty Sh.shape 16, Op.ctorMake Sh.shape 16 (make_static Sh.square [4])]) e c 1).slot 2).bind static_ptr.get = some ob) ∧
     (∀ d dd, (runOps (initSys F0) [Op.mkEmpty Sh.shape 16, Op.ctorMake Sh.shape 16 (make_static Sh.square [4])]).slot d = some dd → d ≠ 1 →
      ((moveAssign (runOps (initSys F0) [Op.mkEmpty Sh.shape 16, Op.ctorMake Sh.shape 16 (make_static Sh.square [4])]) d 1).slot 1).bind static_ptr.get = none ∧
      ∃ ob, ((moveAssign (runOps (initSys F0) [Op.mkEmpty Sh.shape 16, Op.ctorMake Sh.shape 16 (make_static Sh.square [4])]) d 1).slot d).bind static_ptr.get = some ob)) :=
  @transfer_destructive_on_source F0
    (runOps (initSys F0) [Op.mkEmpty Sh.shape 16, Op.ctorMake Sh.shape 16 (make_static Sh.square [4])])
    1 ⟨Sh.shape, 16, some ⟨Sh.square, 0, [4]⟩, some Sh.square, false⟩
    ⟨Sh.square, 0, [4]⟩ Sh.square (by rfl) (by rfl) (by rfl) (by rfl)

/-- C10: self-move-assignment of an occupied slot destroys the contained
object exactly once (the trace gains exactly one destruction event, for that
object, through the slot's own LCM) and leaves the slot empty; it is neither a
preserving no-op nor a double-destroy. -/
theorem self_move_assign_destroys_once {F : Family} {sys : Sys F} {p : Nat}
    {pp : static_ptr F} {o : Obj F} {lt : F.Ty}
    (hp : sys.slot p = some pp) (hocc : pp.is_empty = false)
    (ho : pp.storage_obj = some o) (hl : pp.storage_lcm = some lt) :
    ((moveAssign sys p p).slot p).bind static_ptr.get = none ∧
    (moveAssign sys p p).trace = sys.trace ++ [.destroy p (some lt) o.id] := by
  have hget : pp.get = some o := by
    unfold static_ptr.get
    simp [hocc, ho]
  have hp' : sys.slots[p]? = some (some pp) := slot_eq_iff.mp hp
  have hplen : p < sys.slots.length := (List.getElem?_eq_some_iff.mp hp').1
  rw [moveAssign_of_dst_occupied hp hget]
  have hmid : (Sys.mk (sys.slots.set p (some { pp with is_empty := true })) sys.nextId (sys.trace ++ [Event.destroy p pp.storage_lcm o.id])).slot p = some { pp with is_empty := true } := by
    rw [slot_mk]
    try dsimp only
    rw [List.getElem?_set_self (by simpa using hplen)]
    rfl
  rw [transfer_obj_of_src_empty hmid (by unfold static_ptr.get; simp) p]
  constructor
  · rw [hmid]
    simp [static_ptr.get]
  · try dsimp only
    rw [hl]

/-- Witness for C10: self-assigning the square-holding slot empties it and
appends exactly one destruction event for object 0. -/
theorem self_move_assign_destroys_once_witness :
    ((moveAssign (runOp (initSys F0) (Op.ctorMake Sh.shape 16 (make_static Sh.square [4]))) 0 0).slot 0).bind static_ptr.get = none ∧
    (moveAssign (runOp (initSys F0) (Op.ctorMake Sh.shape 16 (make_static Sh.square [4]))) 0 0).trace
      = (runOp (initSys F0) (Op.ctorMake Sh.shape 16 (make_static Sh.square [4]))).trace ++ [.destroy 0 (some Sh.square) 0] :=
  @self_move_assign_destroys_once F0
    (runOp (initSys F0) (Op.ctorMake Sh.shape 16 (make_static Sh.square [4])))
    0 ⟨Sh.shape, 16, some ⟨Sh.square, 0, [4]⟩, some Sh.square, false⟩
    ⟨Sh.square, 0, [4]⟩ Sh.square (by rfl) (by rfl) (by rfl) (by rfl)

/-- C9: constructing a slot from the `make_static<T>(args...)` payload invokes
the private emplace machinery directly on a fresh slot — no intermediate
element-typed value exists: the resulting slot is occupied by a `T` built
in place from exactly `args`, and the only events are one LCM write and one
construction, of dynamic type `T`. -/
theorem make_static_ctor_emplaces_directly {F : Family} (sys : Sys F)
    (e t : F.Ty) (c : Nat) (args : List Nat) :
    ctorFromTuple sys e c (make_static t args)
      = emplacePriv (Sys.mk (sys.slots ++ [some { elem := e, cap := c }]) sys.nextId sys.trace) sys.slots.length t args ∧
    (ctorFromTuple sys e c (make_static t args)).slot sys.slots.length
      = some ⟨e, c, some ⟨t, sys.nextId, args⟩, some t, false⟩ ∧
    (ctorFromTuple sys e c (make_static t args)).trace
      = sys.trace ++ [.lcmWrite sys.slots.length t, .construct sys.slots.length sys.nextId t args] := by
  have h1 : ctorFromTuple sys e c (make_static t args)
      = emplacePriv (Sys.mk (sys.slots ++ [some { elem := e, cap := c }]) sys.nextId sys.trace) sys.slots.length t args := by
    rw [ctorFromTuple_eq (tupleTy_make_static t args)]
    unfold make_obj
    rw [make_static_args_extracted]
  refine ⟨h1, ?_, ?_⟩
  · rw [h1]
    rw [emplacePriv_spec (by rw [List.getElem?_concat_length])]
    rw [slot_mk]
    try dsimp only
    rw [List.getElem?_set_self (by simp)]
    rfl
  · rw [h1]
    rw [emplacePriv_spec (by rw [List.getElem?_concat_length])]

theorem transfer_obj_trace_extends (sys : Sys F) {d s : Nat} (hne : d ≠ s) :
    ∃ tl, (transfer_obj sys d s).trace = sys.trace ++ tl := by
  cases hd : sys.slot d with
  | none => rw [transfer_obj_of_dst_missing hd]; exact ⟨[], by simp⟩
  | some dd =>
    cases hs : sys.slot s with
    | none => rw [transfer_obj_of_src_missing hs]; exact ⟨[], by simp⟩
    | some ss =>
      cases hg : ss.get with
      | none => rw [transfer_obj_of_src_empty hs hg]; exact ⟨[], by simp⟩
      | some o =>
        cases hl2 : ss.storage_lcm with
        | none => rw [transfer_obj_of_src_no_lcm hs hg hl2]; exact ⟨[], by simp⟩
        | some lt =>
          rw [transfer_obj_spec hd hs hne hg hl2]
          exact ⟨[.construct d sys.nextId lt o.val, .lcmWrite d lt, .destroy s (some lt) o.id], rfl⟩

/-- C4: move-assignment order — if the destination owns an object, the very
first event of the assignment is that object's destruction through the
destination's own LCM, before anything touches the source; and when the source
is empty the assignment stops there: the destination ends empty and no
construction or LCM write is appended at all. -/
theorem move_assign_releases_destination_first {F : Family} {sys : Sys F}
    {d s : Nat} {dd ss : static_ptr F} (hd : sys.slot d = some dd)
    (hs : sys.slot s = some ss) (hne : d ≠ s) :
    (∀ od, dd.get = some od →
      ∃ rest, (moveAssign sys d s).trace
        = sys.trace ++ .destroy d dd.storage_lcm od.id :: rest) ∧
    (ss.get = none →
      ((moveAssign sys d s).slot d).bind static_ptr.get = none ∧
      (moveAssign sys d s).trace = sys.trace ++ (match dd.get with
        | some od => [Event.destroy d dd.storage_lcm od.id]
        | none => [])) := by
  constructor
  · intro od hod
    rw [moveAssign_of_dst_occupied hd hod]
    obtain ⟨tl, htl⟩ := transfer_obj_trace_extends _ hne
    refine ⟨tl, ?_⟩
    rw [htl]
    try dsimp only
    simp
  · intro hsget
    cases hod : dd.get with
    | none =>
      rw [moveAssign_of_dst_empty hd hod]
      rw [transfer_obj_of_src_empty hs hsget d]
      refine ⟨?_, by simp⟩
      rw [hd]
      simp [hod]
    | some od =>
      rw [moveAssign_of_dst_occupied hd hod]
      have hdlen : d < sys.slots.length := (List.getElem?_eq_some_iff.mp (slot_eq_iff.mp hd)).1
      have hsm : (Sys.mk (sys.slots.set d (some { dd with is_empty := true })) sys.nextId (sys.trace ++ [Event.destroy d dd.storage_lcm od.id])).slot s = some ss := by
        rw [slot_mk]
        try dsimp only
        rw [List.getElem?_set_ne hne]
        exact congrArg Option.join (slot_eq_iff.mp hs) |>.trans rfl
      rw [transfer_obj_of_src_empty hsm hsget d]
      constructor
      · rw [slot_mk]
        try dsimp only
        rw [List.getElem?_set_self (by simpa using hdlen)]
        simp [Option.join, static_ptr.get]
      · simp [hod]

/-- Witness for C4: destination slot 0 holds a square, source slot 1 is
empty — the assignment's only event is the destruction of the square through
slot 0's own LCM, and slot 0 ends empty. -/
theorem move_assign_releases_destination_first_witness :
    ((∀ od, (static_ptr.get ⟨Sh.shape, 16, some ⟨Sh.square, 0, [4]⟩, some Sh.square, false⟩ : Option (Obj F0)) = some od →
      ∃ rest, (moveAssign (runOps (initSys F0) [Op.ctorMake Sh.shape 16 (make_static Sh.square [4]), Op.mkEmpty Sh.shape 16]) 0 1).trace
        = (runOps (initSys F0) [Op.ctorMake Sh.shape 16 (make_static Sh.square [4]), Op.mkEmpty Sh.shape 16]).trace ++ .destroy 0 (static_ptr.storage_lcm ⟨Sh.shape, 16, some ⟨Sh.square, 0, [4]⟩, some Sh.square, false⟩) od.id :: rest) ∧
     ((static_ptr.get (⟨Sh.shape, 16, none, none, true⟩ : static_ptr F0)) = none →
      ((moveAssign (runOps (initSys F0) [Op.ctorMake Sh.shape 16 (make_static Sh.square [4]), Op.mkEmpty Sh.shape 16]) 0 1).slot 0).bind static_ptr.get = none ∧
      (moveAssign (runOps (initSys F0) [Op.ctorMake Sh.shape 16 (make_static Sh.square [4]), Op.mkEmpty Sh.shape 16]) 0 1).trace
        = (runOps (initSys F0) [Op.ctorMake Sh.shape 16 (make_static Sh.square [4]), Op.mkEmpty Sh.shape 16]).trace ++ (match (static_ptr.get ⟨Sh.shape, 16, some ⟨Sh.square, 0, [4]⟩, some Sh.square, false⟩ : Option (Obj F0)) with
          | some od => [Event.destroy 0 (static_ptr.storage_lcm ⟨Sh.shape, 16, some ⟨Sh.square, 0, [4]⟩, some Sh.square, false⟩) od.id]
          | none => []))) :=
  @move_assign_releases_destination_first F0
    (runOps (initSys F0) [Op.ctorMake Sh.shape 16 (make_static Sh.square [4]), Op.mkEmpty Sh.shape 16])
    0 1 ⟨Sh.shape, 16, some ⟨Sh.square, 0, [4]⟩, some Sh.square, false⟩
    ⟨Sh.shape, 16, none, none, true⟩ (by rfl) (by rfl) (by omega)

/-- C2: constructing a slot from a concrete `T1` value and move-transferring
it into a fresh slot of the same variant preserves dynamic dispatch: both
steps pass the compile-time checks, and the dispatched operation called
through the destination behaves as `T1`'s override, not as the abstract
base's default. -/
theorem transfer_preserves_dynamic_dispatch {F : Family} (sys : Sys F)
    (e t1 t2 : F.Ty) (c x : Nat) (args : List Nat)
    (hbase : F.is_base_of e t1 = true) (hrefl : F.is_base_of e e = true)
    (hcap : maxsizeof [F.size t1, F.size t2] ≤ c)
    (hdiff : F.dispatch t1 x ≠ F.dispatch e x) :
    wfOp sys (Op.ctorMake e c (make_static t1 args)) = true ∧
    wfOp (runOp sys (Op.ctorMake e c (make_static t1 args))) (Op.moveCtorOp e c sys.slots.length) = true ∧
    dispatchThrough (runOp (runOp sys (Op.ctorMake e c (make_static t1 args))) (Op.moveCtorOp e c sys.slots.length)) (sys.slots.length + 1) x = some (F.dispatch t1 x) ∧
    dispatchThrough (runOp (runOp sys (Op.ctorMake e c (make_static t1 args))) (Op.moveCtorOp e c sys.slots.length)) (sys.slots.length + 1) x ≠ some (F.dispatch e x) := by
  have h1 : runOp sys (Op.ctorMake e c (make_static t1 args))
      = emplacePriv (Sys.mk (sys.slots ++ [some { elem := e, cap := c }]) sys.nextId sys.trace) sys.slots.length t1 args := by
    show ctorFromTuple sys e c (make_static t1 args) = _
    rw [ctorFromTuple_eq (tupleTy_make_static t1 args)]
    unfold make_obj
    rw [make_static_args_extracted]
  have h2 : runOp sys (Op.ctorMake e c (make_static t1 args))
      = Sys.mk ((sys.slots ++ [some ({ elem := e, cap := c } : static_ptr F)]).set sys.slots.length (some ⟨e, c, some ⟨t1, sys.nextId, args⟩, some t1, false⟩)) (sys.nextId + 1) (sys.trace ++ [.lcmWrite sys.slots.length t1, .construct sys.slots.length sys.nextId t1 args]) := by
    rw [h1, emplacePriv_spec (by rw [List.getElem?_concat_length])]
  have hslotn : (runOp sys (Op.ctorMake e c (make_static t1 args))).slot sys.slots.length
      = some ⟨e, c, some ⟨t1, sys.nextId, args⟩, some t1, false⟩ := by
    rw [h2, slot_mk]
    try dsimp only
    rw [List.getElem?_set_self (by simp)]
    rfl
  have hmain : dispatchThrough (runOp (runOp sys (Op.ctorMake e c (make_static t1 args))) (Op.moveCtorOp e c sys.slots.length)) (sys.slots.length + 1) x = some (F.dispatch t1 x) := by
    show dispatchThrough (moveCtor _ e c sys.slots.length) (sys.slots.length + 1) x = _
    rw [moveCtor_eq]
    rw [h2]
    try dsimp only
    have hlen1 : ((sys.slots ++ [some ({ elem := e, cap := c } : static_ptr F)]).set sys.slots.length (some ⟨e, c, some ⟨t1, sys.nextId, args⟩, some t1, false⟩)).length = sys.slots.length + 1 := by
      simp
    have hd2 : (Sys.mk (((sys.slots ++ [some ({ elem := e, cap := c } : static_ptr F)]).set sys.slots.length (some ⟨e, c, some ⟨t1, sys.nextId, args⟩, some t1, false⟩)) ++ [some { elem := e, cap := c }]) (sys.nextId + 1) (sys.trace ++ [.lcmWrite sys.slots.length t1, .construct sys.slots.length sys.nextId t1 args])).slot (((sys.slots ++ [some ({ elem := e, cap := c } : static_ptr F)]).set sys.slots.length (some ⟨e, c, some ⟨t1, sys.nextId, args⟩, some t1, false⟩)).length) = some { elem := e, cap := c } := by
      rw [slot_mk, List.getElem?_concat_length]
      rfl
    have hs2 : (Sys.mk (((sys.slots ++ [some ({ elem := e, cap := c } : static_ptr F)]).set sys.slots.length (some ⟨e, c, some ⟨t1, sys.nextId, args⟩, some t1, false⟩)) ++ [some { elem := e, cap := c }]) (sys.nextId + 1) (sys.trace ++ [.lcmWrite sys.slots.length t1, .construct sys.slots.length sys.nextId t1 args])).slot sys.slots.length = some ⟨e, c, some ⟨t1, sys.nextId, args⟩, some t1, false⟩ := by
      rw [slot_mk]
      try dsimp only
      rw [List.getElem?_append_left (by simp), List.getElem?_set_self (by simp)]
      rfl
    have hne2 : ((sys.slots ++ [some ({ elem := e, cap := c } : static_ptr F)]).set sys.slots.length (some ⟨e, c, some ⟨t1, sys.nextId, args⟩, some t1, false⟩)).length ≠ sys.slots.length := by
      rw [hlen1]
      omega
    have hoX : (⟨e, c, some ⟨t1, sys.nextId, args⟩, some t1, false⟩ : static_ptr F).get = some ⟨t1, sys.nextId, args⟩ := by
      unfold static_ptr.get
      simp
    rw [transfer_obj_spec hd2 hs2 hne2 hoX rfl]
    unfold dispatchThrough
    rw [slot_mk]
    try dsimp only
    rw [← hlen1]
    rw [List.getElem?_set_ne (Ne.symm hne2), List.getElem?_set_self (by simp)]
    simp [Option.join, static_ptr.get]
  refine ⟨?_, ?_, hmain, ?_⟩
  · simp [wfOp, tupleTy_make_static, emplace_compiles, hbase]
  · simp [wfOp, hslotn, transfer_compiles, hrefl]
  · rw [hmain]
    simpa using hdiff

/-- Witness for C2: a square built by `make_static` into a capacity-16 slot,
move-constructed into a fresh slot; the dispatched operation through the
destination returns the square override (207 at argument 7), not the base
default (7). -/
theorem transfer_preserves_dynamic_dispatch_witness :
    wfOp (initSys F0) (Op.ctorMake Sh.shape 16 (make_static Sh.square [4])) = true ∧
    wfOp (runOp (initSys F0) (Op.ctorMake Sh.shape 16 (make_static Sh.square [4]))) (Op.moveCtorOp Sh.shape 16 0) = true ∧
    dispatchThrough (runOp (runOp (initSys F0) (Op.ctorMake Sh.shape 16 (make_static Sh.square [4]))) (Op.moveCtorOp Sh.shape 16 0)) 1 7 = some (F0.dispatch Sh.square 7) ∧
    dispatchThrough (runOp (runOp (initSys F0) (Op.ctorMake Sh.shape 16 (make_static Sh.square [4]))) (Op.moveCtorOp Sh.shape 16 0)) 1 7 ≠ some (F0.dispatch Sh.shape 7) :=
  transfer_preserves_dynamic_dispatch (initSys F0) Sh.shape Sh.square Sh.circle 16 7 [4]
    (by decide) (by decide) (by decide) (by decide)

end SPtr
